import Mathlib

/-!
Verification development for the time-series analytics engine of
GraphicalDisplayInterface/BackEnd/main2.py.

The shallow embedding below models the pandas/numpy pipeline of the source:
a missing value (float NaN in the source) is `none`, a present float is a
rational (or a real where the source takes logarithms and square roots).
Timestamps are unix seconds as naturals.  The relational store consulted by
getPrices is modelled as a list of rows; the two external collaborators whose
values the engine never inspects structurally (the numpy polynomial fit and
the volume lookup over HTTP) are modelled as parameters, respectively omitted
(no claim mentions the volume or summary fields).

Modelling conventions, noted where they matter:
  * float NaN is `none` in rational cells; the volatility pipeline, where
    log of a zero price produces a minus infinity that pandas dropna keeps,
    is modelled over an IEEE value type RVal with NaN and both infinities;
    the percentage MACD columns model a division by a zero price (inf or
    NaN in floats, on inputs no claim exercises) as missing;
  * Nat `%` by zero returns the dividend where SQL would error (fidelity 0
    appears in no claim);
  * python list slicing `xs[k:]` with the always-nonnegative `k` used by
    the source is `List.drop k`.
-/

set_option maxRecDepth 4000

/-- Missing-or-present rational cell, the embedding of one float64 cell of a
pandas column (NaN is `none`). -/
abbrev Cell := Option ℚ

/-- Embedding of `dropna` on a column: keep the present values in order. -/
def dropna {α : Type} (xs : List (Option α)) : List α :=
  xs.filterMap id

/-- All-present test: `some` of the list of values when no cell is missing,
`none` otherwise (used to embed row-wise `dropna` on a DataFrame). -/
def seqOpt {α : Type} : List (Option α) → Option (List α)
  | [] => some []
  | none :: _ => none
  | some x :: xs => (seqOpt xs).map (fun vs => x :: vs)

/-- Cell-wise subtraction: NaN propagates, as in pandas column arithmetic. -/
def subCell {α : Type} [Sub α] : Option α → Option α → Option α
  | some a, some b => some (a - b)
  | _, _ => none

/-- Cell-wise `value / price * 100` used for the percentage MACD columns.
Division by a zero price gives NaN or an infinity in floats; both are
modelled as missing (no claim exercises a zero price). -/
def pctCell : Cell → Cell → Cell
  | some a, some b => if b = 0 then none else some (a / b * 100)
  | _, _ => none

/-- Embedding of `Series.diff(v)`: position i holds x i - x (i-v), missing
for i < v or when either operand is missing. -/
def diffBy {α : Type} [Sub α] (v : ℕ) (xs : List (Option α)) : List (Option α) :=
  List.replicate (min v xs.length) none ++ List.zipWith subCell (xs.drop v) xs

/-- One pass of the pandas exponentially weighted mean with adjust=False and
ignore_na=False (the cython ewma loop): `avg` is the running weighted
average, `ow` the old-weight factor, `nobs` the count of observations seen.
On an observation with a valid average the update is
(ow*(1-a)*avg + a*x) / (ow*(1-a) + a) and the old weight resets to 1; a
missing value only decays the old weight.  Output at a position is the
running average once `minp` observations have been seen, else missing. -/
def ewmGo (a : ℚ) (minp : ℕ) (avg : Option ℚ) (ow : ℚ) (nobs : ℕ) :
    List Cell → List Cell
  | [] => []
  | x :: xs =>
    let nobs2 := if x.isSome then nobs + 1 else nobs
    let st : Option ℚ × ℚ :=
      match avg, x with
      | some v, some c =>
        let w := ow * (1 - a)
        (some ((w * v + a * c) / (w + a)), 1)
      | some v, none => (some v, ow * (1 - a))
      | none, some c => (some c, ow)
      | none, none => (none, ow)
    (if minp ≤ nobs2 then st.1 else none) :: ewmGo a minp st.1 st.2 nobs2 xs

/-- Embedding of `s.ewm(span=span, adjust=False, min_periods=minp).mean()`
with smoothing factor 2/(span+1). -/
def ewmMean (span minp : ℕ) (xs : List Cell) : List Cell :=
  ewmGo (2 / ((span : ℚ) + 1)) minp none 1 0 xs

/-- Mean of the present values of a window, missing when fewer than one
value is present (the min_periods=1 policy of the rolling mean). -/
def meanCell (w : List Cell) : Cell :=
  let vs := dropna w
  if vs.length = 0 then none else some (vs.sum / (vs.length : ℚ))

/-- Embedding of `rolling(w, min_periods=1).mean()`: at row i the mean of
the present values among the trailing min (w, i+1) cells. -/
def rollingMean (w : ℕ) (xs : List Cell) : List Cell :=
  (List.range xs.length).map (fun i => meanCell ((xs.take (i + 1)).drop (i + 1 - w)))

/-- Embedding of the sma branch of get_stats (main2.py lines 238-247):
the rolling mean with min_periods=1, and the time axis truncated by
`times_list[len(times_list)-len(rolling_list):]`. -/
def smaBranch (w : ℕ) (ts : List ℕ) (ps : List Cell) : List ℕ × List Cell :=
  let rolling := rollingMean w ps
  (ts.drop (ts.length - rolling.length), rolling)

/-- Embedding of the macd branch of get_stats (main2.py lines 261-295).
Returns (time axis, histogram pct, macd pct, signal pct) after the dropna
and slicing steps of the source, including the slice
`macd_list[len(signal_list) - ls:]` written there (ls is len(signal_list),
so that slice drops zero elements). -/
def macdBranch (fast slow : ℕ) (ts : List ℕ) (ps : List Cell) :
    List ℕ × List ℚ × List ℚ × List ℚ :=
  let emaFast := ewmMean (fast * 60) (fast * 60) ps
  let emaSlow := ewmMean (slow * 60) (slow * 60) ps
  let macd := List.zipWith subCell emaFast emaSlow
  let signal := ewmMean 9 9 macd
  let histogram := List.zipWith subCell macd signal
  let signalPct := List.zipWith pctCell signal ps
  let macdPct := List.zipWith pctCell macd ps
  let histPct := List.zipWith pctCell histogram ps
  let signalList := dropna signalPct
  let ls := signalList.length
  let histList0 := dropna histPct
  let histList := histList0.drop (histList0.length - ls)
  let macdList0 := dropna macdPct
  let macdList := macdList0.drop (signalList.length - ls)
  let timeList := ts.drop (ts.length - ls)
  (timeList, histList, macdList, signalList)

/-- Maximum of a list of rationals, `none` only for the empty list (the
embedding of a row-wise `max(axis=1)` over fully present rows). -/
def listMax : List ℚ → Option ℚ
  | [] => none
  | x :: xs => some ((listMax xs).elim x (fun m => max x m))

/-- Win shares of one fully present row of period-over-period changes: each
column equal to the row maximum receives 1/(number of tied maxima), the
rest 0 (main2.py lines 341-348).  The count of tied maxima is at least one
for a nonempty row, so the `replace(0, NA)` of the source never fires
there. -/
def rowShares (r : List ℚ) : List ℚ :=
  match listMax r with
  | none => []
  | some m => r.map (fun x => if x = m then 1 / (r.count m : ℚ) else 0)

/-- Row-wise embedding of `DataFrame.diff(periods=v)`: row i becomes
row i minus row (i-v) cell-wise, and rows with i < v become all-missing. -/
def diffRows (v : ℕ) (rows : List (List Cell)) : List (List Cell) :=
  (List.range rows.length).map (fun i =>
    if v ≤ i then List.zipWith subCell (rows.getD i []) (rows.getD (i - v) [])
    else (rows.getD i []).map (fun _ => none))

/-- Leadership shares per column before the final sort: diff by `period`,
drop rows with any missing cell, split a unit win among the tied maxima of each row, sum per column and divide by the number of scored rows
(main2.py lines 339-352, up to and excluding sort_values). -/
def hitSharesRaw (period ncols : ℕ) (rows : List (List Cell)) : List ℚ :=
  let chg := (diffRows period rows).filterMap seqOpt
  let shares := chg.map rowShares
  (List.range ncols).map
    (fun j => (shares.map (fun r => r.getD j 0)).sum / (shares.length : ℚ))

/-- Embedding of hit_rate_percentages (main2.py lines 335-354): the per
column shares sorted descending by value; the to_list of the source keeps
only the sorted values, not the column labels. -/
def hit_rate_percentages (period ncols : ℕ) (rows : List (List Cell)) : List ℚ :=
  (hitSharesRaw period ncols rows).insertionSort (fun a b => b ≤ a)

/-- Insert a timestamp into a strictly ascending list of timestamps,
keeping it strictly ascending and adding nothing when already present. -/
def insertT (t : ℕ) : List ℕ → List ℕ
  | [] => [t]
  | x :: xs => if t < x then t :: x :: xs else if t = x then x :: xs else x :: insertT t xs

/-- Strictly ascending deduplicated list of the given timestamps: the
embedding of the sorted union index that `pd.concat(axis=1, join="outer")`
followed by sort_index builds. -/
def sortedKeys (ts : List ℕ) : List ℕ :=
  ts.foldr insertT []

/-- Value of a raw series at a timestamp, keeping the last occurrence on
duplicates: the composition of `drop_duplicates("time", keep="last")` and
the index lookup of the concatenated frame. -/
def lastVal (s : List (ℕ × ℚ)) (t : ℕ) : Option ℚ :=
  (s.reverse.find? (fun q => q.1 == t)).map (fun q => q.2)

/-- Every timestamp of every input series, with repetitions. -/
def allTimes (ss : List (List (ℕ × ℚ))) : List ℕ :=
  (ss.map (fun s => s.map (fun q => q.1))).flatten

/-- Embedding of align_with_pandas with the default outer join
(main2.py lines 356-373): one row per timestamp of the sorted union, one
column per series holding its value there or missing. -/
def alignOuter (ss : List (List (ℕ × ℚ))) : List (ℕ × List Cell) :=
  (sortedKeys (allTimes ss)).map (fun t => (t, ss.map (fun s => lastVal s t)))

/-- Embedding of `aligned.dropna(inplace=True)` on the aligned frame: keep
exactly the rows whose every cell is present (main2.py line 420). -/
def dropnaRows (m : List (ℕ × List Cell)) : List (ℕ × List ℚ) :=
  m.filterMap (fun r => (seqOpt r.2).map (fun vs => (r.1, vs)))

/-- One row of analytics_2_0.market_prices as the SQL of getPrices sees it:
market id, timestamp in unix seconds, price. -/
structure DBRow where
  market_id : String
  t : ℕ
  price : ℚ
deriving DecidableEq

/-- The relational store consulted by getPrices, as a bag of rows. -/
abbrev DB := List DBRow

/-- The market name and id pair of the request models. -/
structure NameIdPair where
  marketName : String
  marketID : String
deriving DecidableEq

/-- The base parameters of a fetch: market, half-open time range in unix
seconds, fidelity in minutes. -/
structure BaseParams where
  nameID : NameIdPair
  startT : ℕ
  endT : ℕ
  fidelity : ℕ
deriving DecidableEq

/-- Embedding of the SQL of getPrices (main2.py lines 125-136): rows of the
market with start <= t < end, second-of-minute zero, minute-of-hour
divisible by the fidelity, ordered by t. -/
def priceRows (db : DB) (bp : BaseParams) : List (ℕ × ℚ) :=
  ((db.filter (fun r =>
      r.market_id == bp.nameID.marketID
        && decide (bp.startT ≤ r.t) && decide (r.t < bp.endT)
        && decide (r.t % 60 = 0)
        && decide (((r.t / 60) % 60) % bp.fidelity = 0))).map
    (fun r => (r.t, r.price))).insertionSort (fun a b => a.1 ≤ b.1)

/-- Embedding of getPrices (main2.py lines 117-147): the matching rows split
into a time list and a price list, and None in place of the pair when no
row matched. -/
def getPricesEmbed (db : DB) (bp : BaseParams) : Option (List ℕ × List ℚ) :=
  let rows := priceRows db bp
  if rows.isEmpty then none
  else some (rows.map (fun q => q.1), rows.map (fun q => q.2))

/-- Embedding of the canonical series get_stats builds from a successful
fetch (main2.py lines 230-236): sort by t again, and coerce prices to
float64 cells (the store holds numerics, so no cell goes missing here). -/
def canonSeries (db : DB) (bp : BaseParams) : Option (List ℕ × List Cell) :=
  (getPricesEmbed db bp).map (fun tp =>
    let pts := (tp.1.zip tp.2).insertionSort (fun a b => a.1 ≤ b.1)
    (pts.map (fun q => q.1), pts.map (fun q => some q.2)))

/-- Python truthiness of an optional integer parameter: present and
nonzero. -/
def optTruthy : Option ℕ → Bool
  | none => false
  | some k => k != 0

/-- The request body of the stats operation (statsInput of main2.py). -/
structure StatsInput where
  base_params : BaseParams
  features : List String
  sma_window : Option ℕ
  macd_fast : Option ℕ
  macd_slow : Option ℕ
  vol_window : Option ℕ
  trend_degree : Option ℕ

/-- The response of the stats operation (statsResponse of main2.py), for
the fields the claims mention.  The volume lookup (an external HTTP call)
and the summary statistics field are not modelled; no claim depends on
them.  In the volatility field the outer option is field presence and the
inner option distinguishes a NaN value (`none`) from a number. -/
structure StatsResponse where
  macdHistData : Option (List ℕ × List ℚ)
  macdSigMacdData : Option (List ℕ × List ℚ × List ℚ)
  smaData : Option (List ℕ × List Cell)
  trendData : Option (List ℕ × List Cell)
  volatility : Option (Option ℝ)

/-- IEEE float value as the volatility pipeline of the source sees it:
NaN, plus infinity, minus infinity, or a finite real.  The distinction
matters because pandas dropna removes only NaN and keeps the infinities,
which then drive a standard deviation to NaN. -/
inductive RVal : Type
  | nan : RVal
  | pinf : RVal
  | ninf : RVal
  | fin : ℝ → RVal

/-- NaN test of an IEEE value (what pandas dropna removes). -/
def RVal.isNan : RVal → Bool
  | RVal.nan => true
  | _ => false

/-- The finite part of an IEEE value, when it has one. -/
def RVal.toFin : RVal → Option ℝ
  | RVal.fin x => some x
  | _ => none

/-- A float cell as an IEEE value: a missing cell is NaN. -/
def RVal.ofOpt : Option ℝ → RVal
  | none => RVal.nan
  | some x => RVal.fin x

/-- IEEE subtraction: NaN propagates, same-signed infinities cancel to
NaN, an infinity against a finite value or the opposite infinity keeps
its sign. -/
def subR : RVal → RVal → RVal
  | RVal.nan, _ => RVal.nan
  | _, RVal.nan => RVal.nan
  | RVal.pinf, RVal.pinf => RVal.nan
  | RVal.pinf, RVal.ninf => RVal.pinf
  | RVal.pinf, RVal.fin _ => RVal.pinf
  | RVal.ninf, RVal.ninf => RVal.nan
  | RVal.ninf, RVal.pinf => RVal.ninf
  | RVal.ninf, RVal.fin _ => RVal.ninf
  | RVal.fin _, RVal.pinf => RVal.ninf
  | RVal.fin _, RVal.ninf => RVal.pinf
  | RVal.fin a, RVal.fin b => RVal.fin (a - b)

/-- Embedding of `Series.diff(v)` on the IEEE column: position i holds
x i minus x (i-v), and the first v positions are NaN. -/
def diffR (v : ℕ) (xs : List RVal) : List RVal :=
  List.replicate (min v xs.length) RVal.nan ++ List.zipWith subR (xs.drop v) xs

/-- Embedding of `dropna` on the IEEE column: only NaN entries are
removed; infinities survive, exactly as in pandas. -/
def dropnaR (xs : List RVal) : List RVal :=
  xs.filter (fun x => !x.isNan)

/-- Embedding of numpy log on a float cell with the IEEE outcomes the
source keeps: log of a missing or negative price is NaN, log of a zero
price is minus infinity (which the later dropna does not remove), log of
a positive price is finite. -/
noncomputable def nplog : Option ℝ → RVal
  | none => RVal.nan
  | some x =>
    if 0 < x then RVal.fin (Real.log x)
    else if x = 0 then RVal.ninf else RVal.nan

/-- Sample standard deviation of a finite list with the pandas default
ddof=1: NaN (here `none`) when fewer than two values are present. -/
noncomputable def sampleStd (xs : List ℝ) : Option ℝ :=
  if xs.length < 2 then none
  else some (Real.sqrt
    ((xs.map (fun x => (x - xs.sum / (xs.length : ℝ)) ^ 2)).sum / ((xs.length : ℝ) - 1)))

/-- Sample standard deviation of an IEEE column that has already been
through dropna (so it holds no NaN): NaN when fewer than two entries
remain, NaN when any infinity is present (in pandas the deviation of the
infinite entry from the infinite mean is inf minus inf, NaN, which
poisons the sum of squares), and the finite formula otherwise. -/
noncomputable def sampleStdR (xs : List RVal) : Option ℝ :=
  if xs.length < 2 then none
  else
    match seqOpt (xs.map RVal.toFin) with
    | none => none
    | some vs => sampleStd vs

/-- Embedding of the volatility branch of get_stats (main2.py lines
298-302): the v-step difference of the IEEE log prices, NaN rows dropped
(infinities from zero prices survive), the sample standard deviation of
the remainder, and the value (sqrt(525600) / v * std) * 100.  The result
is NaN (`none`) exactly when the standard deviation is. -/
noncomputable def volValue (v : ℕ) (ps : List (Option ℝ)) : Option ℝ :=
  (sampleStdR (dropnaR (diffR v (ps.map nplog)))).map
    (fun s => Real.sqrt 525600 / (v : ℝ) * s * 100)

/-- Log map as the specification words it (section 4.4: drop any row
touching a non-positive or missing price): a non-positive or missing
price becomes missing.  Stated from the spec, to feed volSpecCore. -/
noncomputable def specLog : Option ℝ → Option ℝ
  | none => none
  | some x => if 0 < x then some (Real.log x) else none

/-- Volatility as the specification words it (section 4.4 of the spec):
volatility = std * sqrt(525600) / v over the v-step differences of the
log prices, with rows touching a non-positive or missing price dropped,
absent when fewer than two valid log-returns remain.  Stated from the
spec, to be compared with volValue. -/
noncomputable def volSpecCore (v : ℕ) (ps : List (Option ℝ)) : Option ℝ :=
  (sampleStd (dropna (diffBy v (ps.map specLog)))).map
    (fun s => s * Real.sqrt 525600 / (v : ℝ))

/-- Embedding of get_stats (main2.py lines 217-318).  The external numpy
polynomial fit is the parameter `fit` (the engine never inspects its
output).  A fetch with no rows makes getPrices return None and the
subscript `ps[0]` of get_stats raise a TypeError, embedded as the error
branch. -/
noncomputable def getStatsEmbed (fit : ℕ → List ℕ → List Cell → List Cell)
    (db : DB) (req : StatsInput) : Except String StatsResponse :=
  match canonSeries db req.base_params with
  | none => .error ("TypeError: NoneType object is not subscriptable")
  | some tp =>
    let ts := tp.1
    let ps := tp.2
    let macdPart :=
      if req.features.contains ("macd") && optTruthy req.macd_fast
          && optTruthy req.macd_slow
          && decide (req.macd_fast.getD 0 < req.macd_slow.getD 0) then
        some (macdBranch (req.macd_fast.getD 0) (req.macd_slow.getD 0) ts ps)
      else none
    .ok
      { macdHistData := macdPart.map (fun r => (r.1, r.2.1))
        macdSigMacdData := macdPart.map (fun r => (r.1, r.2.2.1, r.2.2.2))
        smaData :=
          if req.features.contains ("sma") && optTruthy req.sma_window then
            some (smaBranch (req.sma_window.getD 0) ts ps)
          else none
        trendData :=
          if req.features.contains ("trend") && optTruthy req.trend_degree then
            some (ts, fit (req.trend_degree.getD 0) ts ps)
          else none
        volatility :=
          if req.features.contains ("volatility") && optTruthy req.vol_window then
            some (volValue (req.vol_window.getD 0)
              (ps.map (fun c => c.map (fun q => (q : ℝ)))))
          else none }

/-- The fetch loop of post_compare (main2.py lines 411-417): every source
is fetched after its fidelity is overwritten with 1. -/
def compareFetch (db : DB) (sources : List BaseParams) :
    List (Option (List ℕ × List ℚ)) :=
  sources.map (fun b => getPricesEmbed db { b with fidelity := 1 })

/-- The fetch-relevant fields of a source: everything but the fidelity. -/
def stripFid (b : BaseParams) : NameIdPair × ℕ × ℕ :=
  (b.nameID, b.startT, b.endT)

/-- Embedding of the alignment stage of post_compare (main2.py lines
400-420): the overlap bounds max(starts) and min(ends) are computed and
then never used; every fetched series is aligned under the outer join and
rows with any missing cell are dropped in place.  None embeds the
TypeError that an empty fetch (alignedData None) would raise at ad[0]. -/
def compareAligned (db : DB) (sources : List BaseParams) :
    Option (List (ℕ × List ℚ)) :=
  let _startOverlap := (sources.map (fun b => b.startT)).foldr max 0
  let _endOverlap := (sources.map (fun b => b.endT)).foldr min 0
  (seqOpt (compareFetch db sources)).map (fun ads =>
    dropnaRows (alignOuter (ads.map (fun tp => tp.1.zip tp.2))))

/-- Embedding of the hit_rate feature of post_compare (main2.py lines
432-437): the market names in request order paired with the shares sorted
descending by value. -/
def postCompareHitr (db : DB) (sources : List BaseParams) (hitWin : ℕ) :
    Option (List String × List ℚ) :=
  (compareAligned db sources).map (fun al =>
    (sources.map (fun b => b.nameID.marketName),
     hit_rate_percentages hitWin sources.length (al.map (fun r => r.2.map some))))

/-- Trivial instantiation of the external polynomial-fit parameter, used
only to state theorems at concrete requests; the engine never inspects the
fit output, so any function serves. -/
def fitNull : ℕ → List ℕ → List Cell → List Cell := fun _ _ _ => []

/-- One-row store: market M priced 1 at time 0. -/
def dbOne : DB := [⟨"M", 0, 1⟩]

/-- Two-row store: market M priced 1 at time 0 and 3 at time 60. -/
def dbTwo : DB := [⟨"M", 0, 1⟩, ⟨"M", 60, 3⟩]

/-- Two-row store with distinct prices 1 and 2, for the under-determined
trend fit request. -/
def dbC3 : DB := [⟨"M", 0, 1⟩, ⟨"M", 60, 2⟩]

/-- Fetch parameters for market M over [0, 240) at fidelity 1. -/
def bpM : BaseParams := ⟨⟨"M", "M"⟩, 0, 240, 1⟩

/-- Stats request asking only for volatility with window 1. -/
def reqVol1 : StatsInput := ⟨bpM, [("volatility")], none, none, none, some 1, none⟩

/-- Stats request asking for the trend feature with degree 0. -/
def reqTrend0 : StatsInput := ⟨bpM, [("trend")], none, none, none, none, some 0⟩

/-- Stats request asking for the trend feature with degree 3. -/
def reqTrend3 : StatsInput := ⟨bpM, [("trend")], none, none, none, none, some 3⟩

/-- Stats request with no features, used against an empty store. -/
def reqPlain : StatsInput := ⟨bpM, [], none, none, none, none, none⟩

/-- Price cells whose logs are 0, 1, 1, 0, giving one-step log-returns
1, 0, -1 with sample standard deviation exactly 1. -/
noncomputable def pListC4 : List (Option ℝ) :=
  [some 1, some (Real.exp 1), some (Real.exp 1), some 1]

/-- Store for the leadership-share request: market mA gains 1, 1, 1 and
market mB gains 2, 2, 1 over the three steps. -/
def dbHit : DB :=
  [⟨"mA", 0, 1⟩, ⟨"mA", 60, 2⟩, ⟨"mA", 120, 3⟩, ⟨"mA", 180, 4⟩,
   ⟨"mB", 0, 1⟩, ⟨"mB", 60, 3⟩, ⟨"mB", 120, 5⟩, ⟨"mB", 180, 6⟩]

/-- Compare source named A over market mA. -/
def srcA : BaseParams := ⟨⟨"A", "mA"⟩, 0, 240, 1⟩

/-- Compare source named B over market mB. -/
def srcB : BaseParams := ⟨⟨"B", "mB"⟩, 0, 240, 1⟩

/-- The aligned and fully present matrix of dbHit under srcA, srcB. -/
def alignedHit : List (ℕ × List ℚ) :=
  [(0, [1, 1]), (60, [2, 3]), (120, [3, 5]), (180, [4, 6])]

/-- Store for the alignment counterexample: market mA has samples at 0, 60
and 120, market mB only at 0 and 120. -/
def dbAl : DB :=
  [⟨"mA", 0, 1⟩, ⟨"mA", 60, 2⟩, ⟨"mA", 120, 3⟩, ⟨"mB", 0, 4⟩, ⟨"mB", 120, 6⟩]

/-- Compare source named A over market mA of dbAl. -/
def srcA5 : BaseParams := ⟨⟨"A", "mA"⟩, 0, 240, 1⟩

/-- Compare source named B over market mB of dbAl. -/
def srcB5 : BaseParams := ⟨⟨"B", "mB"⟩, 0, 240, 1⟩

/-- The series the compare fetch of dbAl returns, as timestamp-price
lists. -/
def fetchedAl : List (List (ℕ × ℚ)) :=
  ((seqOpt (compareFetch dbAl [srcA5, srcB5])).getD []).map
    (fun tp => tp.1.zip tp.2)

/-- A source with fidelity 5, for the fidelity-irrelevance witness. -/
def srcFid5 : BaseParams := ⟨⟨"x", "y"⟩, 0, 60, 5⟩

/-- The same source with fidelity 7. -/
def srcFid7 : BaseParams := ⟨⟨"x", "y"⟩, 0, 60, 7⟩

/-! ## Helper lemmas -/

/-- A rolling window of size one at position i is the singleton of cell i. -/
theorem take_succ_drop_self {α : Type} (xs : List α) (i : ℕ) (h : i < xs.length) :
    (xs.take (i + 1)).drop i = [xs.get ⟨i, h⟩] := by
  rw [List.drop_take, Nat.add_sub_cancel_left, List.take_one_drop_eq_of_lt_length h]

/-- The mean of a singleton window is the cell itself. -/
theorem meanCell_singleton (c : Cell) : meanCell [c] = c := by
  cases c with
  | none => rfl
  | some x => simp [meanCell, dropna]

/-- The rolling mean of window one is the identity. -/
theorem rollingMean_one (xs : List Cell) : rollingMean 1 xs = xs := by
  apply List.ext_getElem (by simp [rollingMean])
  intro n h1 h2
  simp only [rollingMean, List.getElem_map, List.getElem_range]
  rw [Nat.add_sub_cancel, take_succ_drop_self xs n h2, meanCell_singleton]
  rfl

/-! ## Claim theorems -/

/-- C1: the claim says that for a valid MACD configuration the momentum,
signal and histogram percentage lines and the time axis all have the same
length, the number of rows where the signal line is defined.  On a constant
series of 130 samples with fast = 1 and slow = 2 minutes (spans 60 and 120
samples) the signal line has 3 defined rows and the time, histogram and
signal outputs have length 3, but the momentum output keeps all 11 defined
momentum rows: the slice written as macd_list[len(signal_list) - ls:] in
the source drops nothing.  This refutes the equal-length claim on the
code. -/
theorem c1_macd_line_lengths :
    (macdBranch 1 2 (List.range 130) (List.replicate 130 (some (1 : ℚ)))).1.length = 3
    ∧ (macdBranch 1 2 (List.range 130) (List.replicate 130 (some (1 : ℚ)))).2.1.length = 3
    ∧ (macdBranch 1 2 (List.range 130) (List.replicate 130 (some (1 : ℚ)))).2.2.2.length = 3
    ∧ (macdBranch 1 2 (List.range 130) (List.replicate 130 (some (1 : ℚ)))).2.2.1.length = 11
    ∧ (macdBranch 1 2 (List.range 130) (List.replicate 130 (some (1 : ℚ)))).2.2.1.length
        ≠ (macdBranch 1 2 (List.range 130) (List.replicate 130 (some (1 : ℚ)))).1.length := by
  refine ⟨by decide, by decide, by decide, by decide, by decide⟩

/-- C2: the claim says the leadership output pairs each series with its own
share, sorted descending.  On dbHit the shares per column are A = 1/6 and
B = 5/6, but the returned pair lists the names in request order A, B next
to the shares sorted descending 5/6, 1/6: position 0 pairs the name A with
the share 5/6, which is the share of B, refuting the claim. -/
theorem c2_hitr_name_share_mismatch :
    postCompareHitr dbHit [srcA, srcB] 1 = some ([("A"), ("B")], [5/6, 1/6])
    ∧ hitSharesRaw 1 2 (alignedHit.map (fun r => r.2.map some)) = [1/6, 5/6]
    ∧ compareAligned dbHit [srcA, srcB] = some alignedHit
    ∧ ((5 : ℚ)/6) ≠ 1/6 := by
  refine ⟨by with_unfolding_all decide, by with_unfolding_all decide,
    by with_unfolding_all decide, by with_unfolding_all decide⟩

/-- C3: the claim says a trend fit with more degree than usable points
raises an explicit error.  The source performs no point-count check: on a
two-point series with requested degree 3 the embedded get_stats completes
with a present trendData holding whatever the external numpy fit returns
(numpy emits only a RankWarning for the under-determined system), for every
possible fit behaviour, instead of an error. -/
theorem c3_trend_underdetermined_no_error (fit : ℕ → List ℕ → List Cell → List Cell) :
    getStatsEmbed fit dbC3 reqTrend3
      = .ok { macdHistData := none, macdSigMacdData := none, smaData := none,
              trendData := some ([0, 60], fit 3 [0, 60] [some 1, some 2]),
              volatility := none } := rfl

/-- C5 counterexample: the claim says every timestamp present in any input
series appears as a row of the matrix the comparison features consume.  On
dbAl the timestamp 60 is present in the series of market mA, but the
consumed matrix (outer join followed by the in-place dropna of
post_compare) has rows only at 0 and 120. -/
theorem c5_outer_join_cex :
    compareAligned dbAl [srcA5, srcB5] = some [(0, [1, 4]), (120, [3, 6])]
    ∧ 60 ∈ allTimes fetchedAl
    ∧ ¬ (60 ∈ ((compareAligned dbAl [srcA5, srcB5]).getD []).map Prod.fst) := by
  refine ⟨by with_unfolding_all decide, by decide, by with_unfolding_all decide⟩

/-- C6: the claim says a fetch returning zero samples yields a normal stats
response with every optional field absent.  In the source getPrices turns
an empty result into alignedData None and get_stats immediately subscripts
it, so the embedded get_stats returns the TypeError instead of a
response. -/
theorem c6_empty_fetch_crash (fit : ℕ → List ℕ → List Cell → List Cell)
    (db : DB) (req : StatsInput)
    (h : getPricesEmbed db req.base_params = none) :
    getStatsEmbed fit db req
      = .error ("TypeError: NoneType object is not subscriptable") := by
  unfold getStatsEmbed canonSeries
  rw [h]
  rfl

/-- Witness for C6 at a concrete input: the empty store matches no rows, and
the stats operation errors. -/
theorem c6_empty_fetch_crash_witness :
    getStatsEmbed fitNull ([] : DB) reqPlain
      = .error ("TypeError: NoneType object is not subscriptable") :=
  c6_empty_fetch_crash fitNull [] reqPlain rfl

/-- C8: the trailing mean with window one is the identity on the canonical
series: same time axis, same price cells, same row count. -/
theorem c8_sma_window_one_identity (ts : List ℕ) (ps : List Cell)
    (h : ts.length = ps.length) :
    smaBranch 1 ts ps = (ts, ps) := by
  unfold smaBranch
  rw [rollingMean_one]
  simp [h]

/-- Witness for C8 at a concrete input with a present and a missing cell. -/
theorem c8_sma_window_one_identity_witness :
    smaBranch 1 [0, 60] [some (1 : ℚ), none] = ([0, 60], [some (1 : ℚ), none]) :=
  c8_sma_window_one_identity [0, 60] [some 1, none] (by decide)

/-- C9 counterexample: the claim says degree 0 produces the constant
mean-price fitted line.  On the two-point series of dbTwo with prices 1 and
3 (mean 2) a request for the trend feature with degree 0 produces no trend
output at all: the truthiness test on trend_degree treats 0 like an absent
parameter, so trendData is absent rather than the line with value 2. -/
theorem c9_trend_degree_zero_cex :
    getStatsEmbed fitNull dbTwo reqTrend0
      = .ok { macdHistData := none, macdSigMacdData := none, smaData := none,
              trendData := none, volatility := none }
    ∧ (none : Option (List ℕ × List Cell)) ≠ some ([0, 60], [some 2, some 2]) :=
  ⟨rfl, by decide⟩

/-- C9 as amended: a trend request with degree 0 is skipped exactly like an
unconfigured feature, so the trend output is absent for every store and
request with trend_degree = 0. -/
theorem c9_trend_degree_zero_amended (fit : ℕ → List ℕ → List Cell → List Cell)
    (db : DB) (req : StatsInput) (resp : StatsResponse)
    (hok : getStatsEmbed fit db req = .ok resp)
    (hd : req.trend_degree = some 0) :
    resp.trendData = none := by
  unfold getStatsEmbed at hok
  cases hcs : canonSeries db req.base_params with
  | none => rw [hcs] at hok; exact absurd hok (by simp)
  | some tp =>
    rw [hcs] at hok
    simp only [Except.ok.injEq] at hok
    rw [← hok]
    simp [hd, optTruthy]

/-- Witness for C9 at a concrete input: dbOne with a degree-0 trend request
yields the all-absent response, whose trend field is none. -/
theorem c9_trend_degree_zero_amended_witness :
    (StatsResponse.mk none none none none none).trendData = none :=
  c9_trend_degree_zero_amended fitNull dbOne reqTrend0
    ⟨none, none, none, none, none⟩ rfl rfl

/-- C10: in the compare fetch every source is fetched with fidelity forced
to 1 over its own half-open range: the fetch list is invariant under any
change of the supplied fidelities, and equals the per-source getPrices at
fidelity 1 with the own start and end of that source (the overlap bounds of
post_compare are computed but never reach a fetch). -/
theorem c10_compare_fetch_own_range (db : DB) (s t : List BaseParams)
    (h : s.map stripFid = t.map stripFid) :
    compareFetch db s = compareFetch db t
    ∧ compareFetch db s
        = s.map (fun b => getPricesEmbed db ⟨b.nameID, b.startT, b.endT, 1⟩) := by
  constructor
  · induction s generalizing t with
    | nil =>
      cases t with
      | nil => rfl
      | cons b bs => simp at h
    | cons a as ih =>
      cases t with
      | nil => simp at h
      | cons b bs =>
        simp only [List.map_cons, List.cons.injEq] at h
        obtain ⟨h1, h2⟩ := h
        simp only [compareFetch, List.map_cons, List.cons.injEq]
        constructor
        · have hupd : ({ a with fidelity := 1 } : BaseParams)
              = { b with fidelity := 1 } := by
            unfold stripFid at h1
            simp only [Prod.mk.injEq] at h1
            obtain ⟨e1, e2, e3⟩ := h1
            cases a; cases b
            simp_all
          rw [hupd]
        · exact ih bs h2
  · rfl

/-- Witness for C10 at a concrete input: two singleton source lists that
differ only in fidelity (5 versus 7) fetch identically, at fidelity 1 over
the source range. -/
theorem c10_compare_fetch_own_range_witness :
    compareFetch ([] : DB) [srcFid5] = compareFetch ([] : DB) [srcFid7]
    ∧ compareFetch ([] : DB) [srcFid5]
        = [srcFid5].map (fun b => getPricesEmbed ([] : DB) ⟨b.nameID, b.startT, b.endT, 1⟩) :=
  c10_compare_fetch_own_range [] [srcFid5] [srcFid7] (by decide)

/-- A row-wise dropna keeps a row exactly when every cell is present. -/
theorem seqOpt_isSome {α : Type} (cs : List (Option α)) :
    (seqOpt cs).isSome = cs.all Option.isSome := by
  induction cs with
  | nil => rfl
  | cons c cs ih =>
    cases c with
    | none => rfl
    | some x =>
      simp only [seqOpt, List.all_cons, Option.isSome_some, Bool.true_and, ← ih]
      cases seqOpt cs <;> rfl

/-- A kept row is the list of its cell values. -/
theorem seqOpt_eq_map_some {α : Type} {cs : List (Option α)} {vs : List α}
    (h : seqOpt cs = some vs) : cs = vs.map some := by
  induction cs generalizing vs with
  | nil =>
    simp only [seqOpt, Option.some.injEq] at h
    subst h; rfl
  | cons c cs ih =>
    cases c with
    | none => simp [seqOpt] at h
    | some x =>
      simp only [seqOpt] at h
      cases hcs : seqOpt cs with
      | none => rw [hcs] at h; simp at h
      | some ws =>
        rw [hcs] at h
        simp only [Option.map_some', Option.some.injEq] at h
        subst h
        simp [ih hcs]

/-- The length of a kept row is the number of its cells. -/
theorem seqOpt_length {α : Type} {cs : List (Option α)} {vs : List α}
    (h : seqOpt cs = some vs) : vs.length = cs.length := by
  rw [seqOpt_eq_map_some h, List.length_map]

/-- A kept row is the dropna of its cells. -/
theorem seqOpt_some_dropna {α : Type} {cs : List (Option α)} {vs : List α}
    (h : seqOpt cs = some vs) : vs = dropna cs := by
  rw [seqOpt_eq_map_some h]
  unfold dropna
  rw [List.filterMap_map]
  simp

/-- Every surviving row of the diffed matrix has one entry per column. -/
theorem chg_mem_length {v ncols : ℕ} {rows : List (List Cell)}
    (hrect : ∀ r ∈ rows, r.length = ncols)
    {r : List ℚ} (hr : r ∈ (diffRows v rows).filterMap seqOpt) :
    r.length = ncols := by
  rcases List.mem_filterMap.mp hr with ⟨cr, hcr, hseq⟩
  rcases List.mem_map.mp hcr with ⟨i, hi, hcri⟩
  rw [List.mem_range] at hi
  have hgd : ∀ j, j < rows.length → (rows.getD j []).length = ncols := by
    intro j hj
    rw [List.getD_eq_getElem _ _ hj]
    exact hrect _ (List.getElem_mem hj)
  have hlen : cr.length = ncols := by
    rw [← hcri]
    by_cases hvi : v ≤ i
    · simp only [hvi, if_true, List.length_zipWith]
      rw [hgd i hi, hgd (i - v) (lt_of_le_of_lt (Nat.sub_le i v) hi)]
      exact Nat.min_self ncols
    · simp only [hvi, if_false, List.length_map]
      exact hgd i hi
  rw [seqOpt_length hseq, hlen]

/-- The maximum of a nonempty list is attained. -/
theorem listMax_isSome_mem {r : List ℚ} {m : ℚ} (h : listMax r = some m) : m ∈ r := by
  induction r generalizing m with
  | nil => simp [listMax] at h
  | cons x xs ih =>
    simp only [listMax, Option.some.injEq] at h
    cases hxs : listMax xs with
    | none =>
      rw [hxs] at h
      simp only [Option.elim] at h
      subst h
      exact List.mem_cons_self x xs
    | some m' =>
      rw [hxs] at h
      simp only [Option.elim] at h
      rcases max_choice x m' with hc | hc
      · rw [hc] at h; subst h; exact List.mem_cons_self x xs
      · rw [hc] at h; subst h; exact List.mem_cons_of_mem x (ih hxs)

/-- Summing an indicator map counts the matches. -/
theorem sum_map_ite_count (r : List ℚ) (m q : ℚ) :
    (r.map (fun x => if x = m then q else 0)).sum = (r.count m : ℚ) * q := by
  induction r with
  | nil => simp
  | cons x xs ih =>
    simp only [List.map_cons, List.sum_cons, List.count_cons, ih]
    by_cases hx : x = m
    · simp only [hx, if_true, beq_self_eq_true]
      push_cast
      ring
    · have hb : (x == m) = false := by simp [hx]
      simp [hx, hb]

/-- The win shares of a nonempty fully present row sum to one. -/
theorem rowShares_sum {r : List ℚ} (hne : r ≠ []) : (rowShares r).sum = 1 := by
  unfold rowShares
  cases hm : listMax r with
  | none =>
    cases r with
    | nil => exact absurd rfl hne
    | cons x xs => simp [listMax] at hm
  | some m =>
    have hmem : m ∈ r := listMax_isSome_mem hm
    have hc : 0 < r.count m := List.count_pos_iff.mpr hmem
    have hcq : (r.count m : ℚ) ≠ 0 := by
      exact_mod_cast Nat.pos_iff_ne_zero.mp hc
    rw [sum_map_ite_count]
    rw [mul_one_div, div_self hcq]

/-- The length of the share row equals the length of the change row. -/
theorem rowShares_length (r : List ℚ) : (rowShares r).length = r.length := by
  unfold rowShares
  cases hm : listMax r with
  | none =>
    cases r with
    | nil => rfl
    | cons x xs => simp [listMax] at hm
  | some m => simp

/-- Sums of pointwise sums split. -/
theorem sum_map_add {α : Type} (l : List α) (f g : α → ℚ) :
    (l.map (fun x => f x + g x)).sum = (l.map f).sum + (l.map g).sum := by
  induction l with
  | nil => simp
  | cons x xs ih =>
    simp only [List.map_cons, List.sum_cons, ih]
    ring

/-- Sums of pointwise quotients by a fixed divisor collect. -/
theorem sum_map_div {α : Type} (l : List α) (f : α → ℚ) (d : ℚ) :
    (l.map (fun x => f x / d)).sum = (l.map f).sum / d := by
  induction l with
  | nil => simp
  | cons x xs ih =>
    simp only [List.map_cons, List.sum_cons, ih]
    rw [div_add_div_same]

/-- Indexing a row over the range of its length sums to the row sum. -/
theorem sum_getD_range {r : List ℚ} {n : ℕ} (h : r.length = n) :
    ((List.range n).map (fun j => r.getD j 0)).sum = r.sum := by
  induction r generalizing n with
  | nil =>
    subst h
    simp
  | cons x xs ih =>
    subst h
    rw [List.length_cons, List.range_succ_eq_map]
    simp only [List.map_cons, List.map_map, List.sum_cons, List.getD_cons_zero]
    have : (List.map ((fun j => (x :: xs).getD j 0) ∘ Nat.succ) (List.range xs.length)).sum
        = xs.sum := by
      have hcomp : ((fun j => (x :: xs).getD j 0) ∘ Nat.succ)
          = fun j => xs.getD j 0 := by
        funext j
        simp [Function.comp, List.getD_cons_succ]
      rw [hcomp, ih rfl]
    rw [this]

/-- Column sums and row sums of a rectangular matrix agree. -/
theorem sum_columns_eq_sum_rows (L : List (List ℚ)) (n : ℕ)
    (hL : ∀ r ∈ L, r.length = n) :
    ((List.range n).map (fun j => (L.map (fun r => r.getD j 0)).sum)).sum
      = (L.map (fun r => r.sum)).sum := by
  induction L with
  | nil => simp
  | cons r L ih =>
    simp only [List.map_cons, List.sum_cons]
    rw [sum_map_add (List.range n) (fun j => r.getD j 0)
      (fun j => (L.map (fun rr => rr.getD j 0)).sum)]
    rw [sum_getD_range (hL r (List.mem_cons_self r L))]
    rw [ih (fun rr hrr => hL rr (List.mem_cons_of_mem _ hrr))]

/-- Summing the constant one over a list counts its length. -/
theorem sum_map_one {α : Type} (l : List α) :
    (l.map (fun _ => (1 : ℚ))).sum = (l.length : ℚ) := by
  induction l with
  | nil => simp
  | cons x xs ih =>
    simp [ih]
    ring

/-- C7: for every matrix with one entry per column in every row, at least
one column and at least one surviving row after the period change, each
win shares of every surviving row sum to one, and the leadership shares returned
by hit_rate_percentages sum to one (exactly, in rational arithmetic). -/
theorem c7_leadership_shares_sum_one (v ncols : ℕ) (rows : List (List Cell))
    (hrect : ∀ r ∈ rows, r.length = ncols) (hc : 1 ≤ ncols)
    (he : 1 ≤ ((diffRows v rows).filterMap seqOpt).length) :
    (∀ r ∈ (diffRows v rows).filterMap seqOpt, (rowShares r).sum = 1)
    ∧ (hit_rate_percentages v ncols rows).sum = 1 := by
  have hrow : ∀ r ∈ (diffRows v rows).filterMap seqOpt, (rowShares r).sum = 1 := by
    intro r hr
    apply rowShares_sum
    intro hnil
    have := chg_mem_length hrect hr
    rw [hnil] at this
    simp at this
    omega
  refine ⟨hrow, ?_⟩
  unfold hit_rate_percentages
  rw [(List.perm_insertionSort _ _).sum_eq]
  unfold hitSharesRaw
  rw [sum_map_div]
  rw [sum_columns_eq_sum_rows _ ncols ?hshape]
  case hshape =>
    intro r hr
    rcases List.mem_map.mp hr with ⟨cr, hcr, rfl⟩
    rw [rowShares_length, chg_mem_length hrect hcr]
  rw [List.map_map]
  have hones : (((diffRows v rows).filterMap seqOpt).map
      ((fun r => r.sum) ∘ rowShares)).sum
      = (((diffRows v rows).filterMap seqOpt).map (fun _ => (1 : ℚ))).sum := by
    apply congrArg
    apply List.map_congr_left
    intro r hr
    exact hrow r hr
  rw [hones, sum_map_one, List.length_map]
  apply div_self
  have : 0 < ((diffRows v rows).filterMap seqOpt).length := he
  exact_mod_cast Nat.pos_iff_ne_zero.mp this

/-- Witness for C7 at a concrete input: a one-column matrix with two rows,
change period one, one surviving change row with share one. -/
theorem c7_leadership_shares_sum_one_witness :
    (∀ r ∈ [[some (1 : ℚ)], [some 3]], r.length = 1)
    ∧ 1 ≤ 1
    ∧ 1 ≤ ((diffRows 1 [[some (1 : ℚ)], [some 3]]).filterMap seqOpt).length
    ∧ (hit_rate_percentages 1 1 [[some (1 : ℚ)], [some 3]]).sum = 1 :=
  ⟨by decide, le_refl 1, by decide,
   (c7_leadership_shares_sum_one 1 1 [[some 1], [some 3]]
     (by decide) (by decide) (by decide)).2⟩

/-- Membership in the sorted insertion. -/
theorem mem_insertT {a t : ℕ} {l : List ℕ} : a ∈ insertT t l ↔ a = t ∨ a ∈ l := by
  induction l with
  | nil => simp [insertT]
  | cons x xs ih =>
    unfold insertT
    by_cases h1 : t < x
    · rw [if_pos h1]
      simp only [List.mem_cons]
    · by_cases h2 : t = x
      · subst h2
        rw [if_neg h1, if_pos rfl]
        simp only [List.mem_cons]
        tauto
      · rw [if_neg h1, if_neg h2]
        simp only [List.mem_cons, ih]
        tauto

/-- Sorted insertion keeps the list strictly ascending. -/
theorem pairwise_insertT {t : ℕ} {l : List ℕ} (h : l.Pairwise (· < ·)) :
    (insertT t l).Pairwise (· < ·) := by
  induction l with
  | nil => simp [insertT]
  | cons x xs ih =>
    rw [List.pairwise_cons] at h
    obtain ⟨hx, hxs⟩ := h
    unfold insertT
    by_cases h1 : t < x
    · simp only [h1, if_true, List.pairwise_cons, List.mem_cons]
      refine ⟨?_, hx, hxs⟩
      rintro y (rfl | hy)
      · exact h1
      · exact lt_trans h1 (hx y hy)
    · by_cases h2 : t = x
      · subst h2
        simp only [h1, if_false, if_true, List.pairwise_cons]
        exact ⟨hx, hxs⟩
      · have hxt : x < t := lt_of_le_of_ne (not_lt.mp h1) (fun e => h2 e.symm)
        simp only [h1, h2, if_false, List.pairwise_cons]
        constructor
        · intro y hy
          rcases mem_insertT.mp hy with rfl | hy2
          · exact hxt
          · exact hx y hy2
        · exact ih hxs

/-- The unified time axis is strictly ascending. -/
theorem pairwise_sortedKeys (ts : List ℕ) : (sortedKeys ts).Pairwise (· < ·) := by
  induction ts with
  | nil => simp [sortedKeys]
  | cons t ts ih => exact pairwise_insertT ih

/-- The unified time axis carries exactly the input timestamps. -/
theorem mem_sortedKeys {a : ℕ} {ts : List ℕ} : a ∈ sortedKeys ts ↔ a ∈ ts := by
  induction ts with
  | nil => simp [sortedKeys]
  | cons t ts ih =>
    show a ∈ insertT t (sortedKeys ts) ↔ _
    rw [mem_insertT, ih, List.mem_cons]

/-- A series has a value at a timestamp exactly when the timestamp is one
of its sample times. -/
theorem lastVal_isSome {s : List (ℕ × ℚ)} {t : ℕ} :
    (lastVal s t).isSome = true ↔ t ∈ s.map Prod.fst := by
  unfold lastVal
  rw [Option.isSome_map']
  rw [List.find?_isSome]
  constructor
  · rintro ⟨x, hx, hpx⟩
    rw [beq_iff_eq] at hpx
    exact List.mem_map.mpr ⟨x, List.mem_reverse.mp hx, hpx⟩
  · intro ht
    rcases List.mem_map.mp ht with ⟨x, hx, hfx⟩
    exact ⟨x, List.mem_reverse.mpr hx, by rw [beq_iff_eq]; exact hfx⟩

/-- The all-test over a mapped list composes. -/
theorem all_map_general {α β : Type} (l : List α) (f : α → β) (p : β → Bool) :
    (l.map f).all p = l.all (fun x => p (f x)) := by
  induction l with
  | nil => rfl
  | cons x xs ih => simp [List.all_cons, ih]

/-- A row of lookups is fully present exactly when every series passes the
presence test. -/
theorem seqOpt_isSome_all (ss : List (List (ℕ × ℚ))) (t : ℕ) :
    (seqOpt (ss.map (fun s => lastVal s t))).isSome
      = ss.all (fun s => (lastVal s t).isSome) := by
  rw [seqOpt_isSome, all_map_general]

/-- One step of dropnaRows. -/
theorem dropnaRows_cons (t : ℕ) (cs : List Cell) (m : List (ℕ × List Cell)) :
    dropnaRows ((t, cs) :: m)
      = match seqOpt cs with
        | none => dropnaRows m
        | some vs => (t, vs) :: dropnaRows m := by
  unfold dropnaRows
  rw [List.filterMap_cons]
  cases seqOpt cs <;> rfl

/-- Dropping incomplete rows from an aligned frame over any key list keeps
exactly the keys at which every series has a value, carrying the values. -/
theorem dropnaRows_align (ss : List (List (ℕ × ℚ))) (K : List ℕ) :
    dropnaRows (K.map (fun t => (t, ss.map (fun s => lastVal s t))))
      = (K.filter (fun t => ss.all (fun s => (lastVal s t).isSome))).map
          (fun t => (t, dropna (ss.map (fun s => lastVal s t)))) := by
  induction K with
  | nil => rfl
  | cons t K ih =>
    rw [List.map_cons, dropnaRows_cons, List.filter_cons]
    cases hseq : seqOpt (ss.map (fun s => lastVal s t)) with
    | none =>
      have hcond : (ss.all fun s => (lastVal s t).isSome) = false := by
        rw [← seqOpt_isSome_all, hseq]
        rfl
      rw [hcond]
      simp only [Bool.false_eq_true, if_false]
      exact ih
    | some vs =>
      have hcond : (ss.all fun s => (lastVal s t).isSome) = true := by
        rw [← seqOpt_isSome_all, hseq]
        rfl
      rw [hcond, if_pos rfl, List.map_cons, ← seqOpt_some_dropna hseq]
      exact congrArg (List.cons (t, vs)) ih

/-- C5 as amended: the matrix the comparison features consume is the outer
aligned frame with every incomplete row dropped, so its rows are exactly
the timestamps of the unified axis at which every input series has a value
(the intersection of the time axes, by lastVal_isSome and mem_sortedKeys),
in strictly ascending order, each row carrying the value of every series. -/
theorem c5_consumed_matrix_inner (ss : List (List (ℕ × ℚ))) :
    (dropnaRows (alignOuter ss)).map Prod.fst
      = (sortedKeys (allTimes ss)).filter
          (fun t => ss.all (fun s => (lastVal s t).isSome))
    ∧ ((dropnaRows (alignOuter ss)).map Prod.fst).Pairwise (· < ·)
    ∧ dropnaRows (alignOuter ss)
        = ((sortedKeys (allTimes ss)).filter
            (fun t => ss.all (fun s => (lastVal s t).isSome))).map
            (fun t => (t, dropna (ss.map (fun s => lastVal s t)))) := by
  have hmain := dropnaRows_align ss (sortedKeys (allTimes ss))
  have hfull : dropnaRows (alignOuter ss)
      = ((sortedKeys (allTimes ss)).filter
          (fun t => ss.all (fun s => (lastVal s t).isSome))).map
          (fun t => (t, dropna (ss.map (fun s => lastVal s t)))) := hmain
  have hfst : (dropnaRows (alignOuter ss)).map Prod.fst
      = (sortedKeys (allTimes ss)).filter
          (fun t => ss.all (fun s => (lastVal s t).isSome)) := by
    rw [hfull, List.map_map]
    have : (Prod.fst ∘ fun t => ((t, dropna (ss.map (fun s => lastVal s t))) : ℕ × List ℚ))
        = id := by
      funext t
      rfl
    rw [this, List.map_id]
  refine ⟨hfst, ?_, hfull⟩
  rw [hfst]
  exact List.Pairwise.sublist (List.filter_sublist _) (pairwise_sortedKeys _)

/-- seqOpt over wrapped values recovers the list. -/
theorem seqOpt_map_some {α : Type} (vs : List α) : seqOpt (vs.map some) = some vs := by
  induction vs with
  | nil => rfl
  | cons x xs ih => simp [seqOpt, ih]

/-- On an all-finite column the IEEE standard deviation is the finite
one. -/
theorem sampleStdR_map_fin (vs : List ℝ) :
    sampleStdR (vs.map RVal.fin) = sampleStd vs := by
  unfold sampleStdR
  rw [List.length_map]
  by_cases h : vs.length < 2
  · rw [if_pos h]
    unfold sampleStd
    rw [if_pos h]
  · rw [if_neg h, List.map_map]
    have hcomp : (RVal.toFin ∘ RVal.fin) = some := rfl
    rw [hcomp, seqOpt_map_some]

/-- IEEE subtraction agrees with cell subtraction on embedded cells. -/
theorem subR_ofOpt (a b : Option ℝ) :
    subR (RVal.ofOpt a) (RVal.ofOpt b) = RVal.ofOpt (subCell a b) := by
  cases a <;> cases b <;> rfl

/-- IEEE diff agrees with cell diff on embedded columns. -/
theorem diffR_map_ofOpt (v : ℕ) (l : List (Option ℝ)) :
    diffR v (l.map RVal.ofOpt) = (diffBy v l).map RVal.ofOpt := by
  unfold diffR diffBy
  rw [List.map_append, List.map_replicate, List.length_map, ← List.map_drop,
    List.zipWith_map, List.map_zipWith]
  have hfun : (fun x y => subR (RVal.ofOpt x) (RVal.ofOpt y))
      = fun (x y : Option ℝ) => RVal.ofOpt (subCell x y) := by
    funext x y
    exact subR_ofOpt x y
  rw [hfun]
  rfl

/-- Dropping NaN on an embedded all-cell column is the cell-level
dropna. -/
theorem dropnaR_map_ofOpt (m : List (Option ℝ)) :
    dropnaR (m.map RVal.ofOpt) = (dropna m).map RVal.fin := by
  induction m with
  | nil => rfl
  | cons c m ih =>
    cases c with
    | none =>
      show dropnaR (m.map RVal.ofOpt) = (dropna m).map RVal.fin
      exact ih
    | some x =>
      show RVal.fin x :: dropnaR (m.map RVal.ofOpt)
          = RVal.fin x :: (dropna m).map RVal.fin
      exact congrArg _ ih

/-- On a series of positive prices the IEEE log column is the embedded
specification log column (no zero price, so no infinity arises). -/
theorem map_nplog_pos (ps : List (Option ℝ))
    (hpos : ∀ c ∈ ps, ∀ x : ℝ, c = some x → 0 < x) :
    ps.map nplog = (ps.map specLog).map RVal.ofOpt := by
  induction ps with
  | nil => rfl
  | cons c ps ih =>
    simp only [List.map_cons]
    have htail := ih (fun d hd x hx => hpos d (List.mem_cons_of_mem _ hd) x hx)
    congr 1
    cases c with
    | none => rfl
    | some x =>
      have hx : 0 < x := hpos (some x) (List.mem_cons_self _ _) x rfl
      show (if 0 < x then RVal.fin (Real.log x) else if x = 0 then RVal.ninf else RVal.nan)
          = RVal.ofOpt (if 0 < x then some (Real.log x) else none)
      rw [if_pos hx, if_pos hx]
      rfl

/-- On a series of positive prices the coded volatility is exactly one
hundred times the specification formula, case by case on the standard
deviation; with a zero or negative price the pipelines part ways (the
code keeps the infinite log and ends in NaN). -/
theorem volValue_eq_spec (v : ℕ) (ps : List (Option ℝ))
    (hpos : ∀ c ∈ ps, ∀ x : ℝ, c = some x → 0 < x) :
    volValue v ps = (volSpecCore v ps).map (fun x => x * 100) := by
  unfold volValue volSpecCore
  rw [map_nplog_pos ps hpos, diffR_map_ofOpt, dropnaR_map_ofOpt, sampleStdR_map_fin]
  cases sampleStd (dropna (diffBy v (ps.map specLog))) with
  | none => rfl
  | some s =>
    simp only [Option.map_some', Option.some.injEq]
    ring

/-- C4 counterexample: the claim says the volatility equals
std * sqrt(525600) / v and is absent when fewer than two log-returns
remain.  On a one-sample series the field is present carrying NaN, not
absent; and on the four-sample series pListC4 (all prices positive, std
exactly 1, window 1) the code returns sqrt(525600) * 100 where the claim
formula gives sqrt(525600), a strictly different number. -/
theorem c4_volatility_cex :
    (∃ resp, getStatsEmbed fitNull dbOne reqVol1 = .ok resp
        ∧ resp.volatility = some none ∧ resp.volatility ≠ none)
    ∧ volValue 1 pListC4 = some (Real.sqrt 525600 * 100)
    ∧ volSpecCore 1 pListC4 = some (Real.sqrt 525600)
    ∧ Real.sqrt 525600 * 100 ≠ Real.sqrt 525600 := by
  have h1 : nplog (some (1 : ℝ)) = RVal.fin 0 := by
    show (if (0 : ℝ) < 1 then RVal.fin (Real.log 1)
        else if (1 : ℝ) = 0 then RVal.ninf else RVal.nan) = RVal.fin 0
    rw [if_pos one_pos, Real.log_one]
  have h2 : nplog (some (Real.exp 1)) = RVal.fin 1 := by
    show (if (0 : ℝ) < Real.exp 1 then RVal.fin (Real.log (Real.exp 1))
        else if Real.exp 1 = 0 then RVal.ninf else RVal.nan) = RVal.fin 1
    rw [if_pos (Real.exp_pos 1), Real.log_exp]
  have hm : pListC4.map nplog = [RVal.fin 0, RVal.fin 1, RVal.fin 1, RVal.fin 0] := by
    unfold pListC4
    simp only [List.map_cons, List.map_nil, h1, h2]
  have hd : dropnaR (diffR 1 (pListC4.map nplog))
      = [RVal.fin 1, RVal.fin 0, RVal.fin (-1)] := by
    rw [hm]
    show [RVal.fin ((1 : ℝ) - 0), RVal.fin (1 - 1), RVal.fin (0 - 1)]
        = [RVal.fin 1, RVal.fin 0, RVal.fin (-1)]
    norm_num
  have h1s : specLog (some (1 : ℝ)) = some 0 := by
    show (if (0 : ℝ) < 1 then some (Real.log 1) else none) = some 0
    rw [if_pos one_pos, Real.log_one]
  have h2s : specLog (some (Real.exp 1)) = some 1 := by
    show (if (0 : ℝ) < Real.exp 1 then some (Real.log (Real.exp 1)) else none) = some 1
    rw [if_pos (Real.exp_pos 1), Real.log_exp]
  have hms : pListC4.map specLog = [some (0 : ℝ), some 1, some 1, some 0] := by
    unfold pListC4
    simp only [List.map_cons, List.map_nil, h1s, h2s]
  have hds : dropna (diffBy 1 (pListC4.map specLog)) = [(1 : ℝ), 0, -1] := by
    rw [hms]
    show [(1 : ℝ) - 0, 1 - 1, 0 - 1] = [(1 : ℝ), 0, -1]
    norm_num
  have hstd : sampleStd [(1 : ℝ), 0, -1] = some 1 := by
    unfold sampleStd
    rw [if_neg (by norm_num)]
    rw [Option.some.injEq, Real.sqrt_eq_one]
    norm_num [List.sum_cons, List.sum_nil, List.map_cons, List.map_nil]
  have hs : (0 : ℝ) < Real.sqrt 525600 := Real.sqrt_pos.mpr (by norm_num)
  refine ⟨⟨⟨none, none, none, none, some none⟩, rfl, rfl, by simp⟩, ?_, ?_, ?_⟩
  · unfold volValue
    rw [hd]
    rw [show sampleStdR [RVal.fin 1, RVal.fin 0, RVal.fin (-1)]
        = sampleStd [(1 : ℝ), 0, -1] from rfl]
    rw [hstd]
    simp only [Option.map_some', Option.some.injEq]
    norm_num
  · unfold volSpecCore
    rw [hds, hstd]
    simp only [Option.map_some', Option.some.injEq]
    norm_num
  · intro heq
    nlinarith [hs]

/-- C4 as amended: whenever the volatility feature is requested with a
truthy window and the fetch is nonempty, the volatility field is present
and carries the value of the embedded pipeline; for a series whose prices
are all positive that value is exactly one hundred times the
specification formula std * sqrt(525600) / v over the v-step log-returns
(in particular, with fewer than two valid log-returns it is NaN, the
inner none, rather than the field being absent).  A zero price sends the
coded pipeline down the minus-infinity log path instead. -/
theorem c4_volatility_amended (fit : ℕ → List ℕ → List Cell → List Cell)
    (db : DB) (req : StatsInput) (ts : List ℕ) (ps : List Cell)
    (hc : canonSeries db req.base_params = some (ts, ps))
    (hf : req.features.contains ("volatility") = true)
    (hw : optTruthy req.vol_window = true) :
    ∃ resp, getStatsEmbed fit db req = .ok resp
      ∧ resp.volatility
          = some (volValue (req.vol_window.getD 0)
              (ps.map (fun c => c.map (fun q => (q : ℝ)))))
      ∧ ((∀ c ∈ ps, ∀ q : ℚ, c = some q → 0 < q) →
          volValue (req.vol_window.getD 0)
              (ps.map (fun c => c.map (fun q => (q : ℝ))))
            = (volSpecCore (req.vol_window.getD 0)
                (ps.map (fun c => c.map (fun q => (q : ℝ))))).map (fun x => x * 100)) := by
  unfold getStatsEmbed
  rw [hc]
  refine ⟨_, rfl, ?_, ?_⟩
  · simp only [hf, hw, Bool.and_self, if_true]
  · intro hq
    apply volValue_eq_spec
    intro c hcmem x hx
    rcases List.mem_map.mp hcmem with ⟨d, hd, rfl⟩
    cases d with
    | none => simp at hx
    | some q =>
      have hx2 : ((q : ℚ) : ℝ) = x := by simpa using hx
      subst hx2
      exact_mod_cast hq (some q) hd q rfl

/-- Witness for C4 at a concrete input: dbOne with the volatility request
of window 1 over the single positive price 1 (zero log-returns, so the
carried value is NaN on both sides of the refinement). -/
theorem c4_volatility_amended_witness :
    ∃ resp, getStatsEmbed fitNull dbOne reqVol1 = .ok resp
      ∧ resp.volatility
          = some (volValue (reqVol1.vol_window.getD 0)
              ([some (1 : ℚ)].map (fun c => c.map (fun q => (q : ℝ)))))
      ∧ ((∀ c ∈ [some (1 : ℚ)], ∀ q : ℚ, c = some q → 0 < q) →
          volValue (reqVol1.vol_window.getD 0)
              ([some (1 : ℚ)].map (fun c => c.map (fun q => (q : ℝ))))
            = (volSpecCore (reqVol1.vol_window.getD 0)
                ([some (1 : ℚ)].map (fun c => c.map (fun q => (q : ℝ))))).map
                (fun x => x * 100)) :=
  c4_volatility_amended fitNull dbOne reqVol1 [0] [some 1] rfl rfl rfl

/-- The zero-price path of the coded pipeline, the divergence that
confines volValue_eq_spec to positive prices: with prices 0, 1, 1, 1 and
window 1 the log column holds a minus infinity, a plus infinity survives
the dropna among the differences, and the volatility is NaN — while the
specification pipeline drops the rows touching the zero price and yields
the finite value 0. -/
theorem volValue_zero_price_nan :
    volValue 1 [some (0 : ℝ), some 1, some 1, some 1] = none
    ∧ volSpecCore 1 [some (0 : ℝ), some 1, some 1, some 1] = some 0 := by
  have h0 : nplog (some (0 : ℝ)) = RVal.ninf := by
    show (if (0 : ℝ) < 0 then RVal.fin (Real.log 0)
        else if (0 : ℝ) = 0 then RVal.ninf else RVal.nan) = RVal.ninf
    rw [if_neg (lt_irrefl 0), if_pos rfl]
  have h1 : nplog (some (1 : ℝ)) = RVal.fin 0 := by
    show (if (0 : ℝ) < 1 then RVal.fin (Real.log 1)
        else if (1 : ℝ) = 0 then RVal.ninf else RVal.nan) = RVal.fin 0
    rw [if_pos one_pos, Real.log_one]
  have h0s : specLog (some (0 : ℝ)) = none := by
    show (if (0 : ℝ) < 0 then some (Real.log 0) else none) = none
    rw [if_neg (lt_irrefl 0)]
  have h1s : specLog (some (1 : ℝ)) = some 0 := by
    show (if (0 : ℝ) < 1 then some (Real.log 1) else none) = some 0
    rw [if_pos one_pos, Real.log_one]
  constructor
  · unfold volValue
    rw [show ([some (0 : ℝ), some 1, some 1, some 1].map nplog)
        = [RVal.ninf, RVal.fin 0, RVal.fin 0, RVal.fin 0] from by
      simp only [List.map_cons, List.map_nil, h0, h1]]
    rfl
  · unfold volSpecCore
    rw [show ([some (0 : ℝ), some 1, some 1, some 1].map specLog)
        = [none, some (0 : ℝ), some 0, some 0] from by
      simp only [List.map_cons, List.map_nil, h0s, h1s]]
    rw [show dropna (diffBy 1 [none, some (0 : ℝ), some 0, some 0]) = [(0 : ℝ), 0] from by
      show [(0 : ℝ) - 0, 0 - 0] = [(0 : ℝ), 0]
      norm_num]
    rw [show sampleStd [(0 : ℝ), 0] = some 0 from by
      unfold sampleStd
      rw [if_neg (by norm_num)]
      rw [Option.some.injEq]
      rw [show ((([(0 : ℝ), 0].map
          (fun x => (x - [(0 : ℝ), 0].sum / (([(0 : ℝ), 0].length : ℝ))) ^ 2)).sum)
          / ((([(0 : ℝ), 0].length : ℝ)) - 1)) = (0 : ℝ) from by
        norm_num [List.sum_cons, List.sum_nil, List.map_cons, List.map_nil]]
      exact Real.sqrt_zero]
    simp only [Option.map_some', Option.some.injEq]
    norm_num
